import Mathlib

/- Verification of the Concurrent Media Assembly Pipeline of the AI podcast
   creator.  The definitions below are a shallow embedding of the pipeline's
   source code: subtitle timeline arithmetic and batch audio merging
   (media_processor.py), download retry logic (api_client.py), the
   GPU-to-CPU rendering fallback (video_generator.py), line normalisation,
   audio-cache probing and batch partitioning (main.py), and the task state
   machine of the HTTP driver (api.py).  External effects (file system,
   network, subprocess exit codes, audio decoding) are passed in explicitly
   as parameters so that every function is pure and executable. -/

/-- Character record (api_client.py, dataclass `Character`; the optional
reference audio URL plays no role in any claim and is omitted). -/
structure Character where
  id : String
  name : String
  gender : String
deriving DecidableEq

/-- Script line record (api_client.py, dataclass `ScriptLine`).  Only the
fields the pipeline claims depend on are carried: identifier, character,
textual content, audio reference and inter-line delay in milliseconds. -/
structure ScriptLine where
  id : String
  character : Character
  content : String
  audio_path : String
  delay_duration_ms : Int
deriving DecidableEq

/-- A line's delay converted to seconds, as in
`line.delay_duration_ms / 1000.0` (media_processor.py, line 187). -/
def delaySeconds (l : ScriptLine) : ℚ :=
  (l.delay_duration_ms : ℚ) / 1000

/-- The loop body of `create_subtitle_file` (media_processor.py 150-192):
walking `zip(lines, audio_durations)` with a running cursor `t`, each line
emits the cue interval `[t, t + duration]` and the cursor then advances by
`duration + delay_ms / 1000`. -/
def srtAux : List (ScriptLine × ℚ) → ℚ → List (ℚ × ℚ)
  | [], _ => []
  | p :: rest, t => (t, t + p.2) :: srtAux rest (t + p.2 + delaySeconds p.1)

/-- Timing embedding of `create_subtitle_file` (media_processor.py 150-192):
the list of (start, end) timestamps of the emitted SRT cues, starting the
cursor at 0.  The textual payload and `HH:MM:SS,mmm` formatting of each cue
do not affect any timing claim and are not modelled. -/
def create_subtitle_file (lines : List ScriptLine) (audio_durations : List ℚ) :
    List (ℚ × ℚ) :=
  srtAux (lines.zip audio_durations) 0

/-- The amount the cursor advances past one (line, duration) pair:
`duration + delay_ms / 1000`. -/
def stepAdvance (p : ScriptLine × ℚ) : ℚ :=
  p.2 + delaySeconds p.1

/-- Cursor position (cue start time) before the i-th zipped pair. -/
def cueStart (ps : List (ScriptLine × ℚ)) (i : ℕ) : ℚ :=
  ((ps.take i).map stepAdvance).sum

/-- One piece of the merged batch audio track built by `concatenate_audios`:
either a loaded audio segment or an inserted silence, each with a duration
in seconds. -/
inductive Piece where
  | sound (d : ℚ)
  | silence (d : ℚ)
deriving DecidableEq

/-- Duration in seconds of one merged-track piece. -/
def pieceDuration : Piece → ℚ
  | .sound d => d
  | .silence d => d

/-- The loop of `concatenate_audios` (media_processor.py 266-300) over
`zip(audio_paths, delays_ms)`.  Each audio file is abstracted to its load
result: `some d` when pydub loads it with duration `d` seconds, `none` when
loading raises.  A loaded file appends its sound followed, when its delay is
positive, by `delay` milliseconds of silence; a file whose load raises is
skipped together with its silence (the `except: continue`). -/
def mergePieces : List (Option ℚ × Int) → List Piece
  | [] => []
  | (none, _) :: rest => mergePieces rest
  | (some d, delay) :: rest =>
      Piece.sound d ::
        (if 0 < delay then [Piece.silence ((delay : ℚ) / 1000)] else []) ++
          mergePieces rest

/-- Total duration in seconds of a merged track. -/
def totalDuration (ps : List Piece) : ℚ :=
  (ps.map pieceDuration).sum

/-- Embedding of `concatenate_audios` (media_processor.py 245-312): raises
`ValueError` when the path list is empty, otherwise folds the zipped
(load result, delay) pairs into the merged track. -/
def concatenate_audios (files : List (Option ℚ)) (delays_ms : List Int) :
    Except String (List Piece) :=
  if files.isEmpty then .error ("No audio paths provided for concatenation")
  else .ok (mergePieces (files.zip delays_ms))

/-- Modelled from the spec: the batch merged-audio duration the spec asserts,
namely the sum of the batch lines' `(duration_seconds + delay_seconds)` minus
the trailing delay of the batch's last line.  This definition follows the
spec's words and exists only to be compared against the behaviour of
`concatenate_audios` as embedded from the source. -/
def specBatchMergedDuration (durations : List ℚ) (delays_ms : List Int) : ℚ :=
  ((durations.zip delays_ms).map (fun p => p.1 + (p.2 : ℚ) / 1000)).sum -
    (match delays_ms.getLast? with
     | some delay => (delay : ℚ) / 1000
     | none => 0)

/-- Task status values (schemas.py, `TaskStatusEnum`). -/
inductive TaskStatusEnum where
  | pending
  | processing
  | completed
  | failed
deriving DecidableEq

/-- A status is terminal when it is COMPLETED or FAILED. -/
def isTerminal : TaskStatusEnum → Bool
  | .completed => true
  | .failed => true
  | _ => false

/-- The sequence of writes to `tasks[task_id]["status"]` performed by one
execution of `process_video_task` (api.py 34-112), preceded by the PENDING
value set at task creation (api.py 172-180).  The three booleans are the
only control-flow inputs that affect the status field: whether
`create_podcast_video` returns without raising, whether the output file
exists at the post-completion check (api.py 89), and whether
`cleanup_temp_files` returns without raising (api.py 107).  A failure of
`update_script_status` is caught and adjusts only the message (api.py
95-100), never the status, so it needs no parameter here. -/
def statusWrites (pipelineOk fileExists cleanupOk : Bool) : List TaskStatusEnum :=
  TaskStatusEnum.pending :: TaskStatusEnum.processing ::
    (if pipelineOk then
      TaskStatusEnum.completed ::
        (if fileExists then
          (if cleanupOk then [] else [TaskStatusEnum.failed])
        else
          TaskStatusEnum.failed ::
            (if cleanupOk then [] else [TaskStatusEnum.failed]))
    else [TaskStatusEnum.failed])

/-- A status-write trace is terminal-frozen when every write after a
terminal write repeats that same value. -/
def terminalFrozen : List TaskStatusEnum → Bool
  | [] => true
  | s :: rest =>
      (!(isTerminal s) || rest.all (fun t => t == s)) && terminalFrozen rest

/-- A status-write trace is failed-frozen when every write after a FAILED
write is again FAILED. -/
def failedFrozen : List TaskStatusEnum → Bool
  | [] => true
  | s :: rest =>
      (!(s == TaskStatusEnum.failed) ||
        rest.all (fun t => t == TaskStatusEnum.failed)) && failedFrozen rest

/-- The transient failure classes retried by `download_audio`
(api_client.py 215-218): HTTP error, truncated chunked stream, connection
error, timeout. -/
inductive TransientError where
  | httpError
  | chunkedEncodingError
  | connectionError
  | timeout
deriving DecidableEq

/-- Backoff slept between download attempts: `(attempt + 1) * 2` seconds
(api_client.py 221). -/
def backoffDelay (attempt : ℕ) : ℕ :=
  (attempt + 1) * 2

/-- Observable outcome of one `download_audio` call: the returned bytes or
the raised error (`.error none` models Python's `raise None` when
`max_retries = 0`), the number of attempts actually performed, and the
sequence of backoff sleeps taken between attempts. -/
structure DownloadOutcome (B : Type) where
  result : Except (Option TransientError) B
  attempts : ℕ
  sleeps : List ℕ

/-- The retry loop of `download_audio` (api_client.py 201-224).  `inj` is
the fault injector: the outcome of the HTTP request on each attempt number.
`attempt` is the current attempt index, the second argument the number of
attempts remaining out of `max_retries`, and the last argument the
`last_error` accumulator.  A successful attempt returns at once; a transient
failure stores the error, sleeps `(attempt + 1) * 2` when further attempts
remain, and continues; when attempts are exhausted the last error is
raised. -/
def dlAux {B : Type} (inj : ℕ → Except TransientError B) :
    ℕ → ℕ → Option TransientError → DownloadOutcome B
  | _, 0, last => ⟨.error last, 0, []⟩
  | attempt, r + 1, _ =>
    match inj attempt with
    | .ok b => ⟨.ok b, 1, []⟩
    | .error e =>
      let rest := dlAux inj (attempt + 1) r (some e)
      ⟨rest.result, rest.attempts + 1,
        (if 0 < r then [backoffDelay attempt] else []) ++ rest.sleeps⟩

/-- Embedding of `download_audio` (api_client.py 179-224): run the retry
loop from attempt 0 with `max_retries` attempts available and no recorded
last error. -/
def download_audio {B : Type} (inj : ℕ → Except TransientError B)
    (max_retries : ℕ) : DownloadOutcome B :=
  dlAux inj 0 max_retries none

/-- Output video formats (config.py, `VideoFormat`). -/
inductive VideoFormat where
  | horizontal
  | vertical
deriving DecidableEq

/-- Which encoding backend an ffmpeg invocation uses: `h264_nvenc` (gpu) or
the configured CPU codec (cpu). -/
inductive Backend where
  | gpu
  | cpu
deriving DecidableEq

/-- One ffmpeg rendering invocation as assembled by `create_video_segment`
or `create_video_segment_cpu`: the backend, the input image and audio paths,
the output path, the video format, and the subtitle file burned into the
filter graph (`none` when no subtitles filter is added). -/
structure FfmpegInvocation where
  backend : Backend
  image : String
  audio : String
  output : String
  fmt : VideoFormat
  subtitle : Option String
deriving DecidableEq

/-- Embedding of `create_video_segment_cpu` (video_generator.py 204-244):
one CPU-codec invocation with no subtitle filter; non-zero exit raises.
`exitOk` models the subprocess exit status of an invocation.  The result
carries the output path together with the list of invocations performed. -/
def create_video_segment_cpu (image audio output : String) (fmt : VideoFormat)
    (exitOk : FfmpegInvocation → Bool) :
    Except String (String × List FfmpegInvocation) :=
  let inv : FfmpegInvocation := ⟨Backend.cpu, image, audio, output, fmt, none⟩
  if exitOk inv then .ok (output, [inv])
  else .error ("FFmpeg CPU fallback error")

/-- Embedding of `create_video_segment` (video_generator.py 61-201): the
first invocation uses the GPU codec when `hasGPU` (the cached
`check_gpu_support` probe) and the CPU codec otherwise, and burns the given
subtitle file when one is provided.  On non-zero exit with `hasGPU` the same
image, audio, output and format are retried through
`create_video_segment_cpu`; without GPU support a non-zero exit raises. -/
def create_video_segment (image audio output : String) (fmt : VideoFormat)
    (subtitle : Option String) (hasGPU : Bool)
    (exitOk : FfmpegInvocation → Bool) :
    Except String (String × List FfmpegInvocation) :=
  let inv1 : FfmpegInvocation :=
    ⟨if hasGPU then Backend.gpu else Backend.cpu, image, audio, output, fmt,
      subtitle⟩
  if exitOk inv1 then .ok (output, [inv1])
  else if hasGPU then
    match create_video_segment_cpu image audio output fmt exitOk with
    | .ok (o, invs) => .ok (o, inv1 :: invs)
    | .error e => .error e
  else .error ("FFmpeg error")

/-- The slicing loop `for i in range(0, len(lines), B): lines[i:i+B]`
(main.py 354-355), written with an explicit fuel argument so that it is
structurally recursive; `batchPartition` supplies fuel `lines.length`,
which suffices because every iteration with `B ≥ 1` consumes at least one
element. -/
def chunksAux {α : Type} (B : ℕ) : ℕ → List α → List (List α)
  | 0, _ => []
  | _ + 1, [] => []
  | fuel + 1, a :: rest =>
      ((a :: rest).take B) :: chunksAux B fuel ((a :: rest).drop B)

/-- Embedding of the batch partitioning of `create_podcast_video`
(main.py 316-375): the post-filter line list cut into contiguous slices of
at most `B` elements, in order. -/
def batchPartition {α : Type} (B : ℕ) (lines : List α) : List (List α) :=
  chunksAux B lines.length lines

/-- Python truthiness of `line.audio_path` (main.py 101): a non-empty
string. -/
def hasAudio (l : ScriptLine) : Bool :=
  !l.audio_path.isEmpty

/-- Embedding of the line normalisation of `create_podcast_video`
(main.py 94-112): raise when the fetched list is empty, keep the lines with
a non-empty audio reference, raise when none remain, then truncate to the
first `max_lines` lines when `max_lines > 0`. -/
def normalize_lines (all_lines : List ScriptLine) (max_lines : Int) :
    Except String (List ScriptLine) :=
  if all_lines.isEmpty then .error ("No script lines found")
  else
    let lines := all_lines.filter hasAudio
    if lines.isEmpty then .error ("No lines with audio found")
    else if 0 < max_lines then .ok (lines.take max_lines.toNat)
    else .ok lines

/-- Embedding of `get_audio_duration` (media_processor.py 110-129).  The
pydub decode is abstracted to its result: `some d` when
`AudioSegment.from_file` yields duration `d` seconds, `none` when it raises.
The `except Exception` arm catches every decode failure and returns the
constant fallback 3.0, so the function is total and never raises. -/
def get_audio_duration (decoded : Option ℚ) : ℚ :=
  match decoded with
  | some d => d
  | none => 3

/-- Embedding of `download_single_audio` (main.py 127-164) at the
cache-probe decision point.  `cacheExists` is whether a file already exists
at the derived cache path; `cachedDecode` / `downloadDecode` are the decode
results of the cached file and of the freshly downloaded file.  The result
is (whether the network download was performed, the duration recorded for
the line).  When the cached file exists, `get_audio_duration` is called
inside `try`, but since it never raises the `except` fall-through to the
download never runs and the cached file is always accepted. -/
def download_single_audio (cacheExists : Bool)
    (cachedDecode downloadDecode : Option ℚ) : Bool × ℚ :=
  if cacheExists then (false, get_audio_duration cachedDecode)
  else (true, get_audio_duration downloadDecode)

/-- A script line with empty text fields and the given delay, used for
concrete scenario inputs. -/
def mkLine (delayMs : Int) : ScriptLine :=
  { id := ""
    character := { id := "", name := "", gender := "" }
    content := ""
    audio_path := "a.wav"
    delay_duration_ms := delayMs }

/-- The five lines of the spec's subtitle scenario: delays
[500, 500, 0, 1000, 0] milliseconds. -/
def scenarioLines : List ScriptLine :=
  [mkLine 500, mkLine 500, mkLine 0, mkLine 1000, mkLine 0]

/-- The durations of the spec's subtitle scenario:
[2.0, 1.5, 3.0, 1.0, 2.5] seconds. -/
def scenarioDurations : List ℚ :=
  [2, 3 / 2, 3, 1, 5 / 2]

/-- A subprocess model whose GPU invocations exit non-zero and whose CPU
invocations succeed. -/
def exitsCpuOnly (inv : FfmpegInvocation) : Bool :=
  match inv.backend with
  | Backend.gpu => false
  | Backend.cpu => true

/-- A fault injector that fails the first attempt with a timeout and
succeeds on every later attempt. -/
def injOneFailure : ℕ → Except TransientError ℕ :=
  fun n => if n = 0 then .error TransientError.timeout else .ok 42

/-- A fault injector whose every attempt fails with a connection error. -/
def injAllFail : ℕ → Except TransientError ℕ :=
  fun _ => .error TransientError.connectionError

/-- A helper string for concrete rendering inputs. -/
def imgEx : String := "img.png"

/-- A helper string for concrete rendering inputs. -/
def audEx : String := "aud.wav"

/-- A helper string for concrete rendering inputs. -/
def outEx : String := "out.mp4"

/-- A helper string for concrete rendering inputs. -/
def subEx : String := "subs.srt"

/-- A script line whose audio reference is empty, rejected by the
normalizer's filter. -/
def lineNoAudio : ScriptLine :=
  { mkLine 0 with audio_path := "" }

/-- Closed form for the cue list: the i-th cue emitted when the cursor
starts at `t` spans `[t + cueStart ps i, t + cueStart ps i + duration_i]`,
where `cueStart ps i` sums `duration + delay/1000` over the earlier
pairs. -/
theorem srtAux_getElem (ps : List (ScriptLine × ℚ)) :
    ∀ (t : ℚ) (i : ℕ),
      (srtAux ps t)[i]? =
        ps[i]?.map (fun p => (t + cueStart ps i, t + cueStart ps i + p.2)) := by
  induction ps with
  | nil => intro t i; simp [srtAux]
  | cons p rest ih =>
    intro t i
    cases i with
    | zero => simp [srtAux, cueStart]
    | succ n =>
      have h := ih (t + p.2 + delaySeconds p.1) n
      have hc : cueStart (p :: rest) (n + 1) = stepAdvance p + cueStart rest n := by
        simp [cueStart, List.take]
      simp only [srtAux, List.getElem?_cons_succ, h, hc]
      cases hq : rest[n]? with
      | none => simp
      | some q =>
        simp only [Option.map_some']
        have h1 : t + p.2 + delaySeconds p.1 + cueStart rest n =
            t + (stepAdvance p + cueStart rest n) := by
          simp [stepAdvance]; ring
        rw [h1]

/-- Advancing the prefix sum one step past a present index. -/
theorem cueStart_succ (ps : List (ScriptLine × ℚ)) (i : ℕ) (p : ScriptLine × ℚ)
    (hp : ps[i]? = some p) :
    cueStart ps (i + 1) = cueStart ps i + stepAdvance p := by
  simp [cueStart, List.take_succ, hp]

/-- C1: the subtitle builder emits cue i spanning
[cursor, cursor + duration_i] with the cursor advancing by
duration_i + delay_i/1000, so for nonnegative durations and delays the cues
are time-monotonic and non-overlapping, the gap between cue i's end and cue
i+1's start is exactly delay_i/1000 seconds, and on the five-line scenario
(durations [2.0, 1.5, 3.0, 1.0, 2.5] s, delays [500, 500, 0, 1000, 0] ms)
the cue starts are [0.0, 2.5, 4.5, 7.5, 9.5] and the cue ends are
[2.0, 4.0, 7.5, 8.5, 12.0]. -/
theorem C1_subtitle_timeline (lines : List ScriptLine) (durs : List ℚ)
    (hd : ∀ d ∈ durs, 0 ≤ d)
    (hdelay : ∀ l ∈ lines, 0 ≤ l.delay_duration_ms) :
    (∀ i p, (lines.zip durs)[i]? = some p →
      (create_subtitle_file lines durs)[i]? =
        some (cueStart (lines.zip durs) i, cueStart (lines.zip durs) i + p.2)) ∧
    (∀ i p c c', (lines.zip durs)[i]? = some p →
      (create_subtitle_file lines durs)[i]? = some c →
      (create_subtitle_file lines durs)[i + 1]? = some c' →
      c.1 ≤ c.2 ∧ c.2 ≤ c'.1 ∧
        c'.1 - c.2 = (p.1.delay_duration_ms : ℚ) / 1000) ∧
    (create_subtitle_file scenarioLines scenarioDurations).map Prod.fst =
      [0, 5 / 2, 9 / 2, 15 / 2, 19 / 2] ∧
    (create_subtitle_file scenarioLines scenarioDurations).map Prod.snd =
      [2, 4, 15 / 2, 17 / 2, 12] := by
  refine ⟨?_, ?_, ?_, ?_⟩
  · intro i p hp
    rw [create_subtitle_file, srtAux_getElem, hp]
    simp
  · intro i p c c' hp hc hc'
    rw [create_subtitle_file, srtAux_getElem, hp] at hc
    rw [create_subtitle_file, srtAux_getElem] at hc'
    cases hp' : (lines.zip durs)[i + 1]? with
    | none => rw [hp'] at hc'; simp at hc'
    | some q =>
      rw [hp'] at hc'
      simp only [Option.map_some', Option.some_inj] at hc hc'
      have hstep : cueStart (lines.zip durs) (i + 1) =
          cueStart (lines.zip durs) i + stepAdvance p := cueStart_succ _ i p hp
      have hdp : 0 ≤ p.2 := hd p.2 (List.of_mem_zip (List.getElem?_mem hp)).2
      have hlp : 0 ≤ (p.1.delay_duration_ms : ℚ) / 1000 := by
        have h0 : 0 ≤ p.1.delay_duration_ms :=
          hdelay p.1 (List.of_mem_zip (List.getElem?_mem hp)).1
        positivity
      subst hc; subst hc'
      dsimp only
      refine ⟨by linarith, ?_, ?_⟩
      · rw [hstep]
        simp only [stepAdvance, delaySeconds]
        linarith
      · rw [hstep]
        simp only [stepAdvance, delaySeconds]
        ring
  · norm_num [create_subtitle_file, scenarioLines, scenarioDurations, srtAux,
      delaySeconds, mkLine]
  · norm_num [create_subtitle_file, scenarioLines, scenarioDurations, srtAux,
      delaySeconds, mkLine]

/-- C1 witness: the theorem instantiated on the spec's five-line scenario,
whose cue starts and ends are the claimed values. -/
theorem C1_subtitle_timeline_witness :
    (create_subtitle_file scenarioLines scenarioDurations).map Prod.fst =
      [0, 5 / 2, 9 / 2, 15 / 2, 19 / 2] ∧
    (create_subtitle_file scenarioLines scenarioDurations).map Prod.snd =
      [2, 4, 15 / 2, 17 / 2, 12] :=
  ⟨(C1_subtitle_timeline scenarioLines scenarioDurations
      (by norm_num [scenarioDurations]) (by decide)).2.2.1,
    (C1_subtitle_timeline scenarioLines scenarioDurations
      (by norm_num [scenarioDurations]) (by decide)).2.2.2⟩

/-- `totalDuration` of the empty track. -/
@[simp] theorem totalDuration_nil : totalDuration [] = 0 :=
  rfl

/-- `totalDuration` distributes over cons. -/
@[simp] theorem totalDuration_cons (p : Piece) (ps : List Piece) :
    totalDuration (p :: ps) = pieceDuration p + totalDuration ps := by
  simp [totalDuration]

/-- `totalDuration` distributes over append. -/
@[simp] theorem totalDuration_append (a b : List Piece) :
    totalDuration (a ++ b) = totalDuration a + totalDuration b := by
  simp [totalDuration]

/-- When every file loads and every delay is nonnegative, the merged track's
duration is the sum over the zipped lines of
`duration + delay_ms / 1000` — including the last line's delay. -/
theorem totalDuration_mergePieces :
    ∀ ps : List (ℚ × Int), (∀ p ∈ ps, 0 ≤ p.2) →
      totalDuration (mergePieces (ps.map (Prod.map some id))) =
        (ps.map (fun p => p.1 + (p.2 : ℚ) / 1000)).sum := by
  intro ps
  induction ps with
  | nil => intro _; simp [mergePieces]
  | cons p rest ih =>
    intro h
    obtain ⟨d, delay⟩ := p
    have htail : ∀ q ∈ rest, (0 : Int) ≤ q.2 := fun q hq =>
      h q (List.mem_cons_of_mem _ hq)
    have hhead : (0 : Int) ≤ delay := h (d, delay) (List.mem_cons_self _ _)
    by_cases hpos : 0 < delay
    · simp only [List.map_cons, Prod.map, id, mergePieces, if_pos hpos,
        totalDuration_cons, totalDuration_append, totalDuration_nil,
        pieceDuration, List.sum_cons, ih htail]
      ring
    · have hzero : delay = 0 := le_antisymm (not_lt.mp hpos) hhead
      subst hzero
      simp only [List.map_cons, Prod.map, id, mergePieces,
        if_neg (lt_irrefl (0 : Int)), totalDuration_cons, totalDuration_append,
        totalDuration_nil, pieceDuration, List.sum_cons, List.nil_append,
        ih htail]
      norm_num

/-- C2 counterexample: a one-line batch with duration 1 s and delay 1000 ms.
The source appends the delay's silence after the batch's last line, so the
merged track is [sound 1 s, silence 1 s] of total duration 2 s, while the
claimed formula (sum of duration + delay minus the trailing delay) gives
1 s. -/
theorem C2_trailing_silence_counterexample :
    concatenate_audios [some 1] [1000] = .ok [Piece.sound 1, Piece.silence 1] ∧
    totalDuration [Piece.sound 1, Piece.silence 1] = 2 ∧
    specBatchMergedDuration [1] [1000] = 1 ∧
    (2 : ℚ) ≠ 1 := by
  refine ⟨?_, ?_, ?_, ?_⟩
  · norm_num [concatenate_audios, mergePieces]
  · norm_num [totalDuration, pieceDuration]
  · norm_num [specBatchMergedDuration]
  · norm_num

/-- C2 amended: `concatenate_audios` inserts silence of each line's delay
after every line whose delay is positive, including the batch's last line,
so for a nonempty batch whose files all load and whose delays are
nonnegative the merged-audio duration equals the full sum of the lines'
`(duration_seconds + delay_seconds)` with no trailing-delay subtraction. -/
theorem C2_merged_duration_amended (durs : List ℚ) (delays : List Int)
    (hne : durs ≠ []) (hdelays : ∀ d ∈ delays, 0 ≤ d) :
    concatenate_audios (durs.map some) delays =
      .ok (mergePieces ((durs.map some).zip delays)) ∧
    totalDuration (mergePieces ((durs.map some).zip delays)) =
      ((durs.zip delays).map (fun p => p.1 + (p.2 : ℚ) / 1000)).sum := by
  constructor
  · rw [concatenate_audios, if_neg]
    simp [List.isEmpty_iff, hne]
  · rw [List.zip_map_left]
    exact totalDuration_mergePieces (durs.zip delays)
      (fun p hp => hdelays p.2 (List.of_mem_zip hp).2)

/-- C2 amended witness: a two-line batch, durations [1, 2] s and delays
[500, 0] ms, merges to total duration 1 + 0.5 + 2 = 3.5 s. -/
theorem C2_merged_duration_amended_witness :
    concatenate_audios ([(1 : ℚ), 2].map some) [500, 0] =
      .ok (mergePieces (([(1 : ℚ), 2].map some).zip [500, 0])) ∧
    totalDuration (mergePieces (([(1 : ℚ), 2].map some).zip [500, 0])) =
      (([(1 : ℚ), 2].zip [(500 : Int), 0]).map
        (fun p => p.1 + (p.2 : ℚ) / 1000)).sum :=
  C2_merged_duration_amended [1, 2] [500, 0] (by simp) (by decide)

/-- C3 counterexample: when the pipeline succeeds but the produced output
file is missing at the post-completion check (api.py 89-104), the task's
status is written COMPLETED and then overwritten with FAILED, so a terminal
status does change again. -/
theorem C3_terminal_status_counterexample :
    statusWrites true false true =
      [TaskStatusEnum.pending, TaskStatusEnum.processing,
        TaskStatusEnum.completed, TaskStatusEnum.failed] ∧
    terminalFrozen (statusWrites true false true) = false :=
  ⟨rfl, rfl⟩

/-- C3 amended: the status write sequence always starts
PENDING, PROCESSING and afterwards writes only terminal values; FAILED is
absorbing (every later write is again FAILED); and when the output file
exists at the post-completion check and post-completion cleanup does not
raise, terminal states are never overwritten at all.  COMPLETED can still
be overwritten with FAILED when the file-existence check fails or cleanup
raises. -/
theorem C3_terminal_status_amended :
    ∀ pipelineOk fileExists cleanupOk : Bool,
      (statusWrites pipelineOk fileExists cleanupOk).take 2 =
        [TaskStatusEnum.pending, TaskStatusEnum.processing] ∧
      ((statusWrites pipelineOk fileExists cleanupOk).drop 2).all isTerminal =
        true ∧
      failedFrozen (statusWrites pipelineOk fileExists cleanupOk) = true ∧
      (fileExists = true → cleanupOk = true →
        terminalFrozen (statusWrites pipelineOk fileExists cleanupOk) = true) := by
  decide

/-- C3 amended witness: the amended theorem applied at the happy path
(pipeline succeeds, file exists, cleanup succeeds). -/
theorem C3_terminal_status_amended_witness :
    failedFrozen (statusWrites true true true) = true ∧
    terminalFrozen (statusWrites true true true) = true :=
  ⟨(C3_terminal_status_amended true true true).2.2.1,
    (C3_terminal_status_amended true true true).2.2.2 rfl rfl⟩

/-- With fuel at least the list's length and batch size at least 1, the
slicing loop's chunks concatenate back to the input list. -/
theorem chunksAux_flatten {α : Type} (B : ℕ) (hB : 1 ≤ B) :
    ∀ (fuel : ℕ) (l : List α), l.length ≤ fuel →
      (chunksAux B fuel l).flatten = l := by
  intro fuel
  induction fuel with
  | zero =>
    intro l hl
    have h0 : l = [] := List.eq_nil_of_length_eq_zero (Nat.le_zero.mp hl)
    subst h0
    simp [chunksAux]
  | succ fuel ih =>
    intro l hl
    cases l with
    | nil => simp [chunksAux]
    | cons a rest =>
      have hlen : ((a :: rest).drop B).length ≤ fuel := by
        rw [List.length_drop]
        simp only [List.length_cons] at hl ⊢
        omega
      simp only [chunksAux, List.flatten_cons, ih _ hlen]
      exact List.take_append_drop B (a :: rest)

/-- Every chunk produced by the slicing loop has between 1 and B
elements. -/
theorem chunksAux_mem_size {α : Type} (B : ℕ) (hB : 1 ≤ B) :
    ∀ (fuel : ℕ) (l : List α) (c : List α), c ∈ chunksAux B fuel l →
      c.length ≤ B ∧ c ≠ [] := by
  intro fuel
  induction fuel with
  | zero => intro l c hc; simp [chunksAux] at hc
  | succ fuel ih =>
    intro l c hc
    cases l with
    | nil => simp [chunksAux] at hc
    | cons a rest =>
      simp only [chunksAux, List.mem_cons] at hc
      cases hc with
      | inl h =>
        subst h
        refine ⟨List.length_take_le B _, ?_⟩
        obtain ⟨m, hm⟩ := Nat.exists_eq_add_of_le hB
        subst hm
        simp [List.take_cons]
      | inr h => exact ih _ c h

/-- C6: for every post-filter line sequence and every batch size B ≥ 1, the
batch partitioning is a total order-preserving non-overlapping cover: the
batches concatenate back to the original sequence (so every index lands in
exactly one contiguous batch, in order), each batch is nonempty of size at
most B, and batch size 2 over 5 lines yields [[0, 1], [2, 3], [4]]. -/
theorem C6_batch_partition {α : Type} (lines : List α) (B : ℕ) (hB : 1 ≤ B) :
    (batchPartition B lines).flatten = lines ∧
    (∀ c ∈ batchPartition B lines, c.length ≤ B ∧ c ≠ []) ∧
    batchPartition 2 [0, 1, 2, 3, 4] = [[0, 1], [2, 3], [4]] := by
  refine ⟨chunksAux_flatten B hB lines.length lines le_rfl,
    fun c hc => chunksAux_mem_size B hB lines.length lines c hc, rfl⟩

/-- C6 witness: the partition theorem applied at batch size 2 over the
five-element list. -/
theorem C6_batch_partition_witness :
    (batchPartition 2 [0, 1, 2, 3, 4]).flatten = [0, 1, 2, 3, 4] ∧
    (∀ c ∈ batchPartition 2 [0, 1, 2, 3, 4], c.length ≤ 2 ∧ c ≠ []) ∧
    batchPartition 2 [0, 1, 2, 3, 4] = [[0, 1], [2, 3], [4]] :=
  C6_batch_partition [0, 1, 2, 3, 4] 2 (by decide)

/-- C7 (code bug): a cached file exists but its decode fails.  The claim
(and the source's own `except` arm, main.py 154-156, which prints
"re-downloading") says the probe failure is treated as a cache-miss and the
audio is re-downloaded; but `get_audio_duration` catches every decode
failure internally and returns 3.0, so the `except` arm is unreachable, the
cached file is accepted, no download happens (first component `false`), and
the fallback 3.0 becomes the recorded duration. -/
theorem C7_cache_probe_code_bug :
    download_single_audio true none (some 5) = (false, 3) ∧
    get_audio_duration none = 3 :=
  ⟨rfl, rfl⟩

/-- C9: the duration probe is total — decode failures are absorbed into the
constant fallback 3.0 — and through `download_single_audio` that fallback
becomes the line's recorded duration for downstream timing, whichever path
(cache hit or fresh download) produced the undecodable file. -/
theorem C9_duration_fallback :
    (∀ d : ℚ, get_audio_duration (some d) = d) ∧
    get_audio_duration none = 3 ∧
    (∀ cacheExists : Bool,
      (download_single_audio cacheExists none none).2 = 3) := by
  refine ⟨fun d => rfl, rfl, fun cacheExists => ?_⟩
  cases cacheExists <;> rfl

/-- Dropping a failing file drops its silence too: merging is unchanged by
removing a load-failure entry anywhere in the zipped list. -/
theorem mergePieces_skip (l1 l2 : List (Option ℚ × Int)) (delay : Int) :
    mergePieces (l1 ++ (none, delay) :: l2) = mergePieces (l1 ++ l2) := by
  induction l1 with
  | nil => simp [mergePieces]
  | cons p rest ih =>
    obtain ⟨od, pdelay⟩ := p
    cases od with
    | none => simp [mergePieces, ih]
    | some d => simp [mergePieces, ih]

/-- C10: `concatenate_audios` raises exactly on an empty path list; with a
nonempty list it always returns a merged track; and a file whose load
raises is silently skipped together with its silence insertion, leaving the
merged track identical to the one built without that entry. -/
theorem C10_merge_error_handling :
    (∀ delays : List Int,
      concatenate_audios [] delays =
        .error ("No audio paths provided for concatenation")) ∧
    (∀ (files : List (Option ℚ)) (delays : List Int), files ≠ [] →
      ∃ ps, concatenate_audios files delays = .ok ps) ∧
    (∀ (l1 l2 : List (Option ℚ × Int)) (delay : Int),
      mergePieces (l1 ++ (none, delay) :: l2) = mergePieces (l1 ++ l2)) := by
  refine ⟨fun delays => rfl, fun files delays hne => ?_, mergePieces_skip⟩
  refine ⟨mergePieces (files.zip delays), ?_⟩
  rw [concatenate_audios, if_neg]
  simp [List.isEmpty_iff, hne]

/-- C10 witness: a two-file list whose first file fails to load merges to
the same track as the singleton list of its second file. -/
theorem C10_merge_error_handling_witness :
    ∃ ps, concatenate_audios [none, some 2] [500, 0] = .ok ps :=
  (C10_merge_error_handling).2.1 [none, some 2] [500, 0] (by simp)

/-- C8: the normalizer keeps exactly the lines with a non-empty audio
reference in their original order (the filter), truncates to the first
`max_lines` of them when `max_lines > 0`, and raises — aborting the run
before any audio I/O — exactly when zero lines remain after filtering
(when the fetched list itself is empty the earlier "No script lines found"
error fires, and the filter result is empty then too). -/
theorem C8_normalizer (all_lines : List ScriptLine) (max_lines : Int) :
    ((∃ msg, normalize_lines all_lines max_lines = .error msg) ↔
      all_lines.filter hasAudio = []) ∧
    (all_lines.filter hasAudio ≠ [] → 0 < max_lines →
      normalize_lines all_lines max_lines =
        .ok ((all_lines.filter hasAudio).take max_lines.toNat)) ∧
    (all_lines.filter hasAudio ≠ [] → max_lines ≤ 0 →
      normalize_lines all_lines max_lines =
        .ok (all_lines.filter hasAudio)) := by
  by_cases hall : all_lines = []
  · subst hall
    refine ⟨⟨fun _ => rfl, fun _ => ?_⟩, fun hne _ => absurd rfl hne,
      fun hne _ => absurd rfl hne⟩
    exact ⟨"No script lines found", rfl⟩
  · have hne' : all_lines.isEmpty = false := by
      simp [List.isEmpty_iff, hall]
    by_cases hfil : all_lines.filter hasAudio = []
    · refine ⟨⟨fun _ => hfil, fun _ => ?_⟩, fun hne _ => absurd hfil hne,
        fun hne _ => absurd hfil hne⟩
      refine ⟨"No lines with audio found", ?_⟩
      rw [normalize_lines, hne']
      simp only [Bool.false_eq_true, if_false]
      rw [if_pos]
      simp [List.isEmpty_iff, hfil]
    · have hfil' : (all_lines.filter hasAudio).isEmpty = false := by
        simp [List.isEmpty_iff, hfil]
      constructor
      · constructor
        · intro ⟨msg, hmsg⟩
          rw [normalize_lines, hne'] at hmsg
          simp only [Bool.false_eq_true, if_false] at hmsg
          rw [if_neg] at hmsg
          · by_cases hpos : 0 < max_lines
            · rw [if_pos hpos] at hmsg; exact absurd hmsg (by simp)
            · rw [if_neg hpos] at hmsg; exact absurd hmsg (by simp)
          · simp [List.isEmpty_iff, hfil]
        · intro h; exact absurd h hfil
      · constructor
        · intro _ hpos
          rw [normalize_lines, hne']
          simp only [Bool.false_eq_true, if_false]
          rw [if_neg (by simp [List.isEmpty_iff, hfil]), if_pos hpos]
        · intro _ hneg
          rw [normalize_lines, hne']
          simp only [Bool.false_eq_true, if_false]
          rw [if_neg (by simp [List.isEmpty_iff, hfil]),
            if_neg (not_lt.mpr hneg)]

/-- C8 witness: three fetched lines, one without audio, cap 1: the line
without audio is dropped, the rest truncated to the first line. -/
theorem C8_normalizer_witness :
    normalize_lines [mkLine 500, lineNoAudio, mkLine 0] 1 =
      .ok [mkLine 500] := by
  have h := (C8_normalizer [mkLine 500, lineNoAudio, mkLine 0] 1).2.1
    (by decide) (by decide)
  exact h.trans rfl

/-- Success law for the retry loop at an arbitrary starting attempt: if the
first k probed attempts fail transiently and the next one succeeds within
the remaining budget, the loop returns those bytes after exactly k + 1
attempts. -/
theorem dlAux_success {B : Type} (inj : ℕ → Except TransientError B) :
    ∀ (k r attempt : ℕ) (last : Option TransientError) (b : B), k < r →
      (∀ j, j < k → ∃ e, inj (attempt + j) = .error e) →
      inj (attempt + k) = .ok b →
      (dlAux inj attempt r last).result = .ok b ∧
        (dlAux inj attempt r last).attempts = k + 1 := by
  intro k
  induction k with
  | zero =>
    intro r attempt last b hk _ hsucc
    obtain ⟨r', rfl⟩ := Nat.exists_eq_add_of_lt hk
    rw [Nat.add_zero] at hsucc
    simp [dlAux, hsucc]
  | succ k ih =>
    intro r attempt last b hk hfail hsucc
    obtain ⟨r', rfl⟩ := Nat.exists_eq_add_of_lt hk
    obtain ⟨e0, he0⟩ := hfail 0 (Nat.succ_pos k)
    rw [Nat.add_zero] at he0
    have hfail' : ∀ j, j < k → ∃ e, inj (attempt + 1 + j) = .error e := by
      intro j hj
      obtain ⟨e, he⟩ := hfail (j + 1) (Nat.succ_lt_succ hj)
      exact ⟨e, by rw [← he]; congr 1; omega⟩
    have hsucc' : inj (attempt + 1 + k) = .ok b := by
      rw [← hsucc]; congr 1; omega
    have hr : k < k + 1 + r' := by omega
    have h := ih (k + 1 + r') (attempt + 1) (some e0) b hr hfail' hsucc'
    simp only [dlAux, he0]
    exact ⟨h.1, by rw [h.2]⟩

/-- Exhaustion law for the retry loop at an arbitrary starting attempt:
when every attempt in the budget fails transiently, the loop raises the
error of the final attempt. -/
theorem dlAux_exhaust {B : Type} (inj : ℕ → Except TransientError B) :
    ∀ (r attempt : ℕ), 0 < r →
      (∀ j, j < r → ∃ e, inj (attempt + j) = .error e) →
      ∀ last, ∃ e, inj (attempt + (r - 1)) = .error e ∧
        (dlAux inj attempt r last).result = .error (some e) := by
  intro r
  induction r with
  | zero => intro attempt h0; exact absurd h0 (lt_irrefl 0)
  | succ r ih =>
    intro attempt _ hfail last
    obtain ⟨e0, he0⟩ := hfail 0 (Nat.succ_pos r)
    rw [Nat.add_zero] at he0
    cases r with
    | zero =>
      refine ⟨e0, by simpa using he0, ?_⟩
      simp [dlAux, he0]
    | succ r' =>
      have hfail' : ∀ j, j < r' + 1 → ∃ e, inj (attempt + 1 + j) = .error e := by
        intro j hj
        obtain ⟨e, he⟩ := hfail (j + 1) (Nat.succ_lt_succ hj)
        exact ⟨e, by rw [← he]; congr 1; omega⟩
      obtain ⟨e, he, hres⟩ := ih (attempt + 1) (Nat.succ_pos r') hfail' (some e0)
      refine ⟨e, ?_, ?_⟩
      · rw [← he]; congr 1; omega
      · simp only [dlAux, he0]
        exact hres

/-- Every backoff slept by the loop starting at a given attempt is at least
that attempt's backoff. -/
theorem dlAux_sleeps_lb {B : Type} (inj : ℕ → Except TransientError B) :
    ∀ (r attempt : ℕ) (last : Option TransientError) (x : ℕ),
      x ∈ (dlAux inj attempt r last).sleeps → backoffDelay attempt ≤ x := by
  intro r
  induction r with
  | zero => intro attempt last x hx; simp [dlAux] at hx
  | succ r ih =>
    intro attempt last x hx
    simp only [dlAux] at hx
    cases hinj : inj attempt with
    | ok b => rw [hinj] at hx; simp at hx
    | error e =>
      rw [hinj] at hx
      simp only [List.mem_append] at hx
      cases hx with
      | inl h =>
        by_cases hr : 0 < r
        · rw [if_pos hr] at h
          simp only [List.mem_singleton] at h
          exact le_of_eq h.symm
        · rw [if_neg hr] at h; simp at h
      | inr h =>
        have := ih (attempt + 1) (some e) x h
        have hmono : backoffDelay attempt ≤ backoffDelay (attempt + 1) := by
          simp [backoffDelay]
        exact le_trans hmono this

/-- The backoff sleeps recorded by the retry loop strictly increase. -/
theorem dlAux_sleeps_chain {B : Type} (inj : ℕ → Except TransientError B) :
    ∀ (r attempt : ℕ) (last : Option TransientError),
      List.Chain' (fun x y => x < y) (dlAux inj attempt r last).sleeps := by
  intro r
  induction r with
  | zero => intro attempt last; simp [dlAux]
  | succ r ih =>
    intro attempt last
    simp only [dlAux]
    cases hinj : inj attempt with
    | ok b => simp
    | error e =>
      simp only
      by_cases hr : 0 < r
      · rw [if_pos hr]
        rw [List.singleton_append, List.chain'_cons']
        refine ⟨?_, ih (attempt + 1) (some e)⟩
        intro y hy
        have hmem : y ∈ (dlAux inj (attempt + 1) r (some e)).sleeps :=
          List.mem_of_mem_head? hy
        have hlb := dlAux_sleeps_lb inj r (attempt + 1) (some e) y hmem
        have : backoffDelay attempt < backoffDelay (attempt + 1) := by
          simp [backoffDelay]
        omega
      · rw [if_neg hr]
        simp only [List.nil_append]
        exact ih (attempt + 1) (some e)

/-- C4: the download retry loop with budget N (default 3): when the first
k < N attempts fail with a transient error and attempt k succeeds, the call
returns those bytes using exactly k + 1 attempts; when all N attempts fail
transiently, the call raises the final attempt's error; and the backoff
delays slept between attempts strictly increase with the attempt number. -/
theorem C4_download_retry {B : Type} (inj : ℕ → Except TransientError B)
    (N : ℕ) (hN : 0 < N) :
    (∀ k b, k < N → (∀ j, j < k → ∃ e, inj j = .error e) → inj k = .ok b →
      (download_audio inj N).result = .ok b ∧
        (download_audio inj N).attempts = k + 1) ∧
    ((∀ j, j < N → ∃ e, inj j = .error e) →
      ∃ e, inj (N - 1) = .error e ∧
        (download_audio inj N).result = .error (some e)) ∧
    List.Chain' (fun x y => x < y) (download_audio inj N).sleeps := by
  refine ⟨?_, ?_, dlAux_sleeps_chain inj N 0 none⟩
  · intro k b hk hfail hsucc
    exact dlAux_success inj k N 0 none b hk
      (by simpa using hfail) (by simpa using hsucc)
  · intro hfail
    obtain ⟨e, he, hres⟩ := dlAux_exhaust inj N 0 hN (by simpa using hfail) none
    exact ⟨e, by simpa using he, hres⟩

/-- C4 witness: with an injector failing only attempt 0 (timeout) and
budget 3, the download returns the bytes after exactly 2 attempts; with an
injector failing every attempt, the call raises the last connection
error. -/
theorem C4_download_retry_witness :
    ((download_audio injOneFailure 3).result = .ok 42 ∧
      (download_audio injOneFailure 3).attempts = 2) ∧
    (∃ e, injAllFail (3 - 1) = .error e ∧
      (download_audio injAllFail 3).result = .error (some e)) :=
  ⟨(C4_download_retry injOneFailure 3 (by decide)).1 1 42 (by decide)
      (fun j hj => ⟨TransientError.timeout, by
        interval_cases j
        · rfl⟩) rfl,
    (C4_download_retry injAllFail 3 (by decide)).2.1
      (fun j _ => ⟨TransientError.connectionError, rfl⟩)⟩

/-- C5 counterexample: GPU available, GPU invocation exits non-zero, CPU
invocation succeeds, and a subtitle burn was requested.  The fallback does
re-render the same image, audio, output path and format through the CPU
path, but `create_video_segment_cpu` takes no subtitle argument
(video_generator.py 197, 204-209): its invocation carries no subtitle burn,
so the retry is not "the same batch ... and requested subtitle burn" as the
claim states. -/
theorem C5_gpu_fallback_counterexample :
    create_video_segment imgEx audEx outEx VideoFormat.horizontal
        (some subEx) true exitsCpuOnly =
      .ok (outEx,
        [⟨Backend.gpu, imgEx, audEx, outEx, VideoFormat.horizontal, some subEx⟩,
         ⟨Backend.cpu, imgEx, audEx, outEx, VideoFormat.horizontal, none⟩]) ∧
    ¬ ((⟨Backend.cpu, imgEx, audEx, outEx, VideoFormat.horizontal, none⟩ :
        FfmpegInvocation).subtitle = some subEx) :=
  ⟨rfl, fun h => Option.noConfusion h⟩

/-- C5 amended: when hardware-accelerated encoding is available and the GPU
invocation exits non-zero, the renderer retries the batch exactly once
through the CPU-only path with the same image, audio, output path and
format — but without the requested subtitle burn; the batch is rendered
exactly when the CPU invocation succeeds, and only failure of both paths
yields a run-level error. -/
theorem C5_gpu_fallback_amended (image audio output : String)
    (fmt : VideoFormat) (subtitle : Option String)
    (exitOk : FfmpegInvocation → Bool)
    (hgpu : exitOk ⟨Backend.gpu, image, audio, output, fmt, subtitle⟩ = false) :
    create_video_segment image audio output fmt subtitle true exitOk =
      (if exitOk ⟨Backend.cpu, image, audio, output, fmt, none⟩ then
        .ok (output,
          [⟨Backend.gpu, image, audio, output, fmt, subtitle⟩,
           ⟨Backend.cpu, image, audio, output, fmt, none⟩])
      else .error ("FFmpeg CPU fallback error")) := by
  by_cases hcpu : exitOk ⟨Backend.cpu, image, audio, output, fmt, none⟩ = true
  · simp [create_video_segment, create_video_segment_cpu, hgpu, hcpu]
  · simp [create_video_segment, create_video_segment_cpu, hgpu, hcpu]

/-- C5 amended witness: the amended theorem applied to a subprocess model
whose GPU invocations fail and CPU invocations succeed. -/
theorem C5_gpu_fallback_amended_witness :
    create_video_segment imgEx audEx outEx VideoFormat.horizontal
        (some subEx) true exitsCpuOnly =
      (if exitsCpuOnly
          ⟨Backend.cpu, imgEx, audEx, outEx, VideoFormat.horizontal, none⟩ then
        .ok (outEx,
          [⟨Backend.gpu, imgEx, audEx, outEx, VideoFormat.horizontal,
            some subEx⟩,
           ⟨Backend.cpu, imgEx, audEx, outEx, VideoFormat.horizontal, none⟩])
      else .error ("FFmpeg CPU fallback error")) :=
  C5_gpu_fallback_amended imgEx audEx outEx VideoFormat.horizontal
    (some subEx) exitsCpuOnly rfl
